import Mathlib

/-!
Verification of the subtitle ingestion and query-serving pipeline of the
Seoul_Hotel_Reviews_via_YouTube repository.

The Python sources are shallowly embedded as executable Lean definitions:
  * `ingest/common.py`              → `backoff_sequence`
  * `ingest/p04_fetch_subtitles.py` → `parse_json3_events`, `parse_webvtt`,
                                      `best_lang_key`, `fetch_subs_for_video`
  * `src/yt_ingest/bq_client.py`    → `upsert_subtitles_raw` (with the merge
                                      statement's semantics rendered over a
                                      list-of-rows warehouse state)
  * `app/main.py`                   → `ask`
Floating point arithmetic is modelled with exact rationals; external
collaborators (yt-dlp, HTTP, BigQuery) are modelled as explicit oracle
inputs, with raised exceptions represented by `Except.error`.
-/

namespace SeoulYT

/-! ### Python string primitives used by the sources -/

/-- The ASCII whitespace characters stripped by Python's `str.strip()`
(and matched by the regex class used in `ingest/p04_fetch_subtitles.py`). -/
def pyIsWs (c : Char) : Bool :=
  c = ' ' || c = '\t' || c = '\n' || c = '\x0d' || c = '\x0b' || c = '\x0c'

/-- `str.strip()` : drop leading and trailing whitespace characters. -/
def pyStripList (l : List Char) : List Char :=
  ((l.dropWhile pyIsWs).reverse.dropWhile pyIsWs).reverse

/-- `str.strip()` on a `String`. -/
def pyStrip (s : String) : String :=
  String.mk (pyStripList s.toList)

/-- `str.rstrip()` : drop trailing whitespace characters. -/
def pyRstripList (l : List Char) : List Char :=
  (l.reverse.dropWhile pyIsWs).reverse

/-- `str.replace("\n", " ")`. -/
def replaceNl (s : String) : String :=
  String.mk (s.toList.map fun c => if c = '\n' then ' ' else c)

/-- Python slicing `s[:n]` on a string. -/
def strTake (n : Nat) (s : String) : String :=
  String.mk (s.toList.take n)

/-- Truthiness of an optional string in Python (`if x:`):
`None` and the empty string are falsy. -/
def optTruthy : Option String → Bool
  | none => false
  | some s => s ≠ ""

/-! ### `ingest/common.py` : backoff_sequence -/

/-- Loop body of `backoff_sequence`: yield `min(delay, cap)` then continue
with `delay = min(delay * factor, cap)`. -/
def backoffGo (cap factor : ℚ) : Nat → ℚ → List ℚ
  | 0, _ => []
  | n + 1, delay => min delay cap :: backoffGo cap factor n (min (delay * factor) cap)

/-- `backoff_sequence(max_tries, base, cap, factor)` from `ingest/common.py`,
with the lazy generator materialised as the list of all yielded delays. -/
def backoff_sequence (max_tries : Nat) (base cap factor : ℚ) : List ℚ :=
  backoffGo cap factor max_tries base

/-! ### `ingest/p04_fetch_subtitles.py` : language selection -/

/-- `pat.endswith("-")`. -/
def endsDash (s : String) : Bool :=
  s.toList.getLast? = some '-'

/-- The scan over the pattern list inside `best_lang_key`: for a pattern
ending in `"-"` take the first available key with that prefix, otherwise
take the pattern itself when it is an available key. -/
def bestLangScan (keys : List String) : List String → Option String
  | [] => none
  | pat :: rest =>
    if endsDash pat then
      match keys.find? (fun k => pat.toList.isPrefixOf k.toList) with
      | some k => some k
      | none => bestLangScan keys rest
    else if keys.contains pat then some pat
    else bestLangScan keys rest

/-- `best_lang_key(available, pref, fb)`: choose the best matching language
key using the fixed pattern order
`[pref, pref + "-", "a." + pref, fb, fb + "-", "a." + fb]`.
The mapping is embedded as an association list in iteration order. -/
def best_lang_key {α : Type} (available : List (String × α)) (pref fb : String) :
    Option String :=
  bestLangScan (available.map Prod.fst)
    [pref, pref ++ "-", "a." ++ pref, fb, fb ++ "-", "a." ++ fb]

/-- The selection policy as worded by the specification: first an exact
match on the preferred code, then the first key carrying the preferred
code plus `"-"` as a prefix, then the exact auto-generated key, and the
same three checks for the fallback code. -/
def specLangSelect {α : Type} (available : List (String × α)) (pref fb : String) :
    Option String :=
  let keys := available.map Prod.fst
  let exact := fun (c : String) => if keys.contains c then some c else none
  let variant := fun (c : String) =>
    keys.find? (fun k => (c ++ "-").toList.isPrefixOf k.toList)
  let auto := fun (c : String) => exact ("a." ++ c)
  (((((exact pref).orElse fun _ => variant pref).orElse fun _ => auto pref).orElse
      fun _ => exact fb).orElse fun _ => variant fb).orElse fun _ => auto fb

/-! ### `ingest/p04_fetch_subtitles.py` : JSON3 event parsing -/

/-- One entry of a JSON3 event's `segs` list (`s.get("utf8", "")`). -/
structure Json3Frag where
  utf8 : Option String
deriving DecidableEq

/-- One JSON3 caption event; every field may be absent. -/
structure Json3Event where
  segs : Option (List Json3Frag)
  tStartMs : Option Int
  dDurationMs : Option Int
deriving DecidableEq

/-- A decoded JSON3 payload (`json3_obj.get("events", [])`). -/
structure Json3 where
  events : List Json3Event
deriving DecidableEq

/-- One parsed caption segment as produced by both parsers. -/
structure Seg where
  idx : Nat
  start_sec : ℚ
  dur_sec : ℚ
  text : String
deriving DecidableEq

/-- The per-event body of the `parse_json3_events` loop: `None` when the
event is skipped (absent/empty `segs`, or empty text after concatenating
fragments, replacing newlines and stripping); otherwise the start and
duration in seconds (millisecond fields divided by 1000) and the text. -/
def json3Keep (ev : Json3Event) : Option (ℚ × ℚ × String) :=
  let seg_list := ev.segs.getD []
  if seg_list = [] then none
  else
    let text := pyStrip (replaceNl (String.join (seg_list.map fun s => s.utf8.getD "")))
    if text = "" then none
    else some (((ev.tStartMs.getD 0 : ℚ) / 1000, (ev.dDurationMs.getD 0 : ℚ) / 1000, text))

/-- The loop of `parse_json3_events`, threading the running index exactly
as the Python `idx` counter does. -/
def json3Loop : List Json3Event → Nat → List Seg × List String
  | [], _ => ([], [])
  | ev :: rest, idx =>
    match json3Keep ev with
    | none => json3Loop rest idx
    | some (st, du, tx) =>
      let r := json3Loop rest (idx + 1)
      (⟨idx, st, du, tx⟩ :: r.1, tx :: r.2)

/-- `parse_json3_events`: segments plus the space-joined full text. -/
def parse_json3_events (events : List Json3Event) : List Seg × String :=
  let r := json3Loop events 0
  (r.1, " ".intercalate r.2)

/-! ### `ingest/p04_fetch_subtitles.py` : WebVTT parsing -/

/-- `"-->" in ln`: substring containment of the arrow. -/
def containsArrow : List Char → Bool
  | [] => false
  | c :: t => (c = '-' && ['-', '>'].isPrefixOf t) || containsArrow t

/-- `str.splitlines()` over `\n`, `\r` and `\r\n` terminators: a terminator
closes the current (possibly empty) line; a final unterminated line is kept
only when non-empty relative to the scan (as in Python). -/
def pySplitlinesAux : List Char → List Char → List (List Char)
  | [], acc => if acc = [] then [] else [acc.reverse]
  | '\n' :: rest, acc => acc.reverse :: pySplitlinesAux rest []
  | '\x0d' :: '\n' :: rest, acc => acc.reverse :: pySplitlinesAux rest []
  | '\x0d' :: rest, acc => acc.reverse :: pySplitlinesAux rest []
  | c :: rest, acc => pySplitlinesAux rest (c :: acc)

/-- `vtt_text.splitlines()`. -/
def pySplitlines (s : String) : List (List Char) :=
  pySplitlinesAux s.toList []

/-- `ln.strip("﻿ ").rstrip()` applied to each raw line. -/
def cleanVttLine (l : List Char) : List Char :=
  let bomSp := fun (c : Char) => c = '﻿' || c = ' '
  pyRstripList (((l.dropWhile bomSp).reverse.dropWhile bomSp).reverse)

/-- Numeric value of a decimal digit character. -/
def digitVal (c : Char) : Nat := c.toNat - '0'.toNat

/-- `_hms_to_sec(h, m, s)`: `int(h) * 3600 + int(m) * 60 + float(s)`. -/
def hmsToSec (h m : Nat) (s : ℚ) : ℚ :=
  h * 3600 + m * 60 + s

/-- Parse the leading `HH:MM:SS.mmm` group of the timestamp regex, returning
its value in seconds together with the unconsumed characters. -/
def parseStamp : List Char → Option (ℚ × List Char)
  | a :: b :: ':' :: c :: d :: ':' :: e :: f :: '.' :: g :: h :: i :: rest =>
    if [a, b, c, d, e, f, g, h, i].all Char.isDigit then
      some (hmsToSec (10 * digitVal a + digitVal b) (10 * digitVal c + digitVal d)
        ((10 * digitVal e + digitVal f : ℚ) +
          (100 * digitVal g + 10 * digitVal h + digitVal i : ℚ) / 1000), rest)
    else none
  | _ => none

/-- The anchored timestamp-range regex `_VTT_TS` of the source: two
`HH:MM:SS.mmm` stamps separated by a single-whitespace-padded `-->`,
with arbitrary trailing characters ignored. Returns (start, end). -/
def parseTsLine (l : List Char) : Option (ℚ × ℚ) :=
  match parseStamp l with
  | none => none
  | some (st, rest) =>
    match rest with
    | w1 :: '-' :: '-' :: '>' :: w2 :: rest2 =>
      if pyIsWs w1 && pyIsWs w2 then
        match parseStamp rest2 with
        | some (en, _) => some (st, en)
        | none => none
      else none
    | _ => none

/-- The inner while loop collecting a cue body: consume lines while they are
non-empty and arrow-free, keeping those not beginning with `NOTE`; return
the kept lines and the unconsumed remainder. -/
def takeBody : List (List Char) → List (List Char) × List (List Char)
  | [] => ([], [])
  | l :: ls =>
    if l ≠ [] && !containsArrow l then
      let r := takeBody ls
      (if ['N', 'O', 'T', 'E'].isPrefixOf l then r.1 else l :: r.1, r.2)
    else ([], l :: ls)

/-- Main scan of `parse_webvtt`: a line whose timestamp regex matches opens
a cue; its body is collected by `takeBody`, joined with spaces, newline-
replaced and stripped; a non-empty text is emitted with the next index and
with duration `max 0 (end - start)`. Each iteration consumes at least one
line, so running the scan with the number of lines as structural fuel is
exact (the fuel never runs out); structural recursion keeps the definition
computable by the kernel. -/
def vttLoop : Nat → List (List Char) → Nat → List Seg × List String
  | 0, _, _ => ([], [])
  | _ + 1, [], _ => ([], [])
  | fuel + 1, ln :: rest, idx =>
    if containsArrow ln then
      match parseTsLine ln with
      | some (st, en) =>
        let body := takeBody rest
        let text := pyStrip (replaceNl
          (" ".intercalate (body.1.map fun l => String.mk l)))
        if text ≠ "" then
          let r := vttLoop fuel body.2 (idx + 1)
          (⟨idx, st, max 0 (en - st), text⟩ :: r.1, text :: r.2)
        else vttLoop fuel body.2 idx
      | none => vttLoop fuel rest idx
    else vttLoop fuel rest idx

/-- `parse_webvtt(vtt_text)`: clean each line, scan for cues, and return
the segments plus the space-joined full text. -/
def parse_webvtt (vtt_text : String) : List Seg × String :=
  let lines := (pySplitlines vtt_text).map cleanVttLine
  let r := vttLoop lines.length lines 0
  (r.1, " ".intercalate r.2)

/-! ### `ingest/p04_fetch_subtitles.py` : acquisition orchestrator

The external caption backend (yt-dlp plus HTTP downloads) is modelled as an
oracle record; any exception raised by the `yt-dlp` extraction calls is an
`Except.error`. Downloads are total (`download_text` catches every request
exception internally and returns `None` on exhaustion), and `json.loads`
may fail, which the source catches in an inner `try`. -/

/-- One track of the `requested_subtitles` mapping (step A);
`data` is its optional inline JSON3 payload. -/
structure TrackA where
  data : Option Json3
deriving DecidableEq

/-- The info dict of the inline-payload extraction (`requested_subtitles`,
with an absent/empty mapping folded to the empty list). -/
structure InfoA where
  requested_subtitles : List (String × TrackA)

/-- One encoding entry of a URL-discovery track list (`ext`, `url`). -/
structure SubEntry where
  ext : Option String
  url : Option String
deriving DecidableEq

/-- The info dict of the URL-discovery extraction: the human-authored
`subtitles` pool and the `automatic_captions` pool. -/
structure InfoB where
  subtitles : List (String × List SubEntry)
  automatic_captions : List (String × List SubEntry)

/-- Oracle for every external effect of `fetch_subs_for_video`. -/
structure Backend where
  extractA : Except String InfoA
  extractB : Except String InfoB
  download : String → Option String
  jsonLoads : String → Except String Json3

/-- One output row of the `segments` list
(`{"video_id", "lang", "idx", "start_sec", "dur_sec", "text"}`). -/
structure SegRow where
  video_id : String
  lang : String
  idx : Nat
  start_sec : ℚ
  dur_sec : ℚ
  text : String
deriving DecidableEq

/-- The `full` row (`{"video_id", "lang", "full_text"}`). -/
structure FullRow where
  video_id : String
  lang : String
  full_text : String
deriving DecidableEq

/-- `dict(video_id=vid, lang=k, **e)`. -/
def addMeta (vid k : String) (s : Seg) : SegRow :=
  ⟨vid, k, s.idx, s.start_sec, s.dur_sec, s.text⟩

/-- Package parsed events as the rows returned on a successful attempt,
truncating the full text to 1,000,000 characters. -/
def packResult (vid k : String) (parsed : List Seg × String) :
    List SegRow × FullRow :=
  (parsed.1.map (addMeta vid k), ⟨vid, k, strTake 1000000 parsed.2⟩)

/-- Python `or` over an optional language key: `None` and the empty
string are falsy and fall through to the second operand. -/
def pyOrKey (a b : Option String) : Option String :=
  match a with
  | some k => if k = "" then b else some k
  | none => b

/-- Pure body of attempt A once `extract_info` returned: select a language
key from `requested_subtitles` (policy, else first key), read its inline
JSON3 data, and succeed iff parsing yields at least one segment. -/
def stepACore (info : InfoA) (vid pref fb : String) :
    Option (List SegRow × FullRow) :=
  let rs := info.requested_subtitles
  if rs = [] then none
  else
    match pyOrKey (best_lang_key rs pref fb) (rs.head?.map Prod.fst) with
    | none => none
    | some k =>
      if k = "" then none
      else
        match (List.lookup k rs).bind TrackA.data with
        | none => none
        | some j =>
          let parsed := parse_json3_events j.events
          if parsed.1 = [] then none
          else some (packResult vid k parsed)

/-- Attempt A (`try` block A): propagates the extraction exception. -/
def tryA (b : Backend) (vid pref fb : String) :
    Except String (Option (List SegRow × FullRow)) :=
  match b.extractA with
  | .error e => .error e
  | .ok info => .ok (stepACore info vid pref fb)

/-- The JSON3-URL branch of attempt B: download, decode, parse; any of
`download` returning nothing / an empty body, a `json.loads` failure, or a
parse with no segments falls through. -/
def stepBJson3 (b : Backend) (vid k : String) (url_json3 : Option String) :
    Option (List SegRow × FullRow) :=
  match url_json3 with
  | none => none
  | some u =>
    if u = "" then none
    else
      match b.download u with
      | none => none
      | some txt =>
        if txt = "" then none
        else
          match b.jsonLoads txt with
          | .error _ => none
          | .ok j =>
            let parsed := parse_json3_events j.events
            if parsed.1 = [] then none
            else some (packResult vid k parsed)

/-- The WebVTT-URL branch of attempt B. -/
def stepBVtt (b : Backend) (vid k : String) (url_vtt : Option String) :
    Option (List SegRow × FullRow) :=
  match url_vtt with
  | none => none
  | some u =>
    if u = "" then none
    else
      match b.download u with
      | none => none
      | some txt =>
        if txt = "" then none
        else
          let parsed := parse_webvtt txt
          if parsed.1 = [] then none
          else some (packResult vid k parsed)

/-- Pure body of attempt B once `extract_info` returned: pick the pool
(manual if non-empty, else auto), select a key, locate the JSON3 and
cue-format URLs, and try them in that order. -/
def stepBCore (b : Backend) (info : InfoB) (vid pref fb : String) :
    List SegRow × Option FullRow :=
  let subs := info.subtitles
  let autos := info.automatic_captions
  let pool := if subs ≠ [] then subs else autos
  if pool = [] then ([], none)
  else
    match pyOrKey (best_lang_key pool pref fb) (pool.head?.map Prod.fst) with
    | none => ([], none)
    | some k =>
      if k = "" then ([], none)
      else
        let entries := (List.lookup k pool).getD []
        let url_json3 :=
          (entries.find? fun e => e.ext = some "json3").bind SubEntry.url
        let url_vtt :=
          (entries.find? fun e =>
            decide (e.ext = some "vtt" ∨ e.ext = some "ttml" ∨
              e.ext = some "srv3" ∨ e.ext = some "srv1")).bind SubEntry.url
        match stepBJson3 b vid k url_json3 with
        | some r => (r.1, some r.2)
        | none =>
          match stepBVtt b vid k url_vtt with
          | some r => (r.1, some r.2)
          | none => ([], none)

/-- Attempt B (`try` block B): propagates the extraction exception. -/
def tryB (b : Backend) (vid pref fb : String) :
    Except String (List SegRow × Option FullRow) :=
  match b.extractB with
  | .error e => .error e
  | .ok info => .ok (stepBCore b info vid pref fb)

/-- Attempt B with its `except` handler: an exception degrades to
`([], None)`. -/
def stepB (b : Backend) (vid pref fb : String) : List SegRow × Option FullRow :=
  match tryB b vid pref fb with
  | .ok r => r
  | .error _ => ([], none)

/-- `fetch_subs_for_video`: attempt A first; on no inline success or on an
attempt-A exception, fall back to attempt B. The `Except` return type
records whether an exception escapes to the caller (it never does). -/
def fetch_subs_for_video (b : Backend) (vid pref fb : String) :
    Except String (List SegRow × Option FullRow) :=
  match tryA b vid pref fb with
  | .ok (some r) => .ok (r.1, some r.2)
  | .ok none => .ok (stepB b vid pref fb)
  | .error _ => .ok (stepB b vid pref fb)

/-- A sample JSON3 event used by concrete witnesses. -/
def wEventA : Json3Event := ⟨some [⟨some "hi"⟩], some 0, some 1000⟩

/-- A backend whose inline-payload extraction succeeds with one English
track. -/
def wBackendA : Backend :=
  { extractA := .ok ⟨[("en", ⟨some ⟨[wEventA]⟩⟩)]⟩
    extractB := .ok ⟨[], []⟩
    download := fun _ => none
    jsonLoads := fun _ => .error "unused" }

/-- A backend whose inline-payload extraction raises and whose
URL-discovery extraction exposes one English JSON3 URL. -/
def wBackendB : Backend :=
  { extractA := .error "simulated extraction failure"
    extractB := .ok ⟨[("en", [⟨some "json3", some "u1"⟩])], []⟩
    download := fun _ => some "payload"
    jsonLoads := fun _ => .ok ⟨[wEventA]⟩ }

/-- The rows both witness backends produce. -/
def wPairA : List SegRow × FullRow :=
  packResult "v" "en" (parse_json3_events [wEventA])

/-! ### `src/yt_ingest/bq_client.py` : upsert into SUBTITLES_RAW

The warehouse destination table is modelled as a list of rows of the
`SUBTITLES_RAW` schema; NULL is `Option.none`. The MERGE statement built
by `upsert_subtitles_raw` is rendered over that state: the ON condition is
the AND of null-safe comparisons (`IS NOT DISTINCT FROM` = equality of
`Option` values) over the parsed `dedupe_on` columns (an empty column list
renders `FALSE`); a matched target row is updated with every staged column
except `video_id`; an unmatched staged row is inserted whole. BigQuery
raises a runtime error when one target row is matched by more than one
source row; that error is the `none` outcome. -/

/-- One element of the repeated `snippets` RECORD. -/
structure Snip where
  idx : Option Int
  start : Option ℚ
  stop : Option ℚ
  duration : Option ℚ
  text : Option String
deriving DecidableEq

/-- One row of the `SUBTITLES_RAW` schema. -/
structure Row where
  video_id : Option String
  subtitle_lang : Option String
  subtitle_text : Option String
  source : Option String
  snippet_count : Option Int
  snippets : Option (List Snip)
  errors : List String
  ingested_at : Option String
deriving DecidableEq

/-- Column names of `SUBTITLES_RAW`. -/
inductive Col
  | video_id | subtitle_lang | subtitle_text | source
  | snippet_count | snippets | errors | ingested_at
deriving DecidableEq

/-- A column value, for null-safe comparisons across column types. -/
inductive ColVal
  | vStr (v : Option String)
  | vInt (v : Option Int)
  | vSnips (v : Option (List Snip))
  | vErrs (v : List String)
deriving DecidableEq

/-- Project a column out of a row. -/
def getCol : Col → Row → ColVal
  | .video_id, r => .vStr r.video_id
  | .subtitle_lang, r => .vStr r.subtitle_lang
  | .subtitle_text, r => .vStr r.subtitle_text
  | .source, r => .vStr r.source
  | .snippet_count, r => .vInt r.snippet_count
  | .snippets, r => .vSnips r.snippets
  | .errors, r => .vErrs r.errors
  | .ingested_at, r => .vStr r.ingested_at

/-- `_build_merge_condition_from_keys`: AND of null-safe equalities over
the key columns, and the never-matching `FALSE` for an empty key list. -/
def rowMatches (keys : List Col) (t s : Row) : Bool :=
  !keys.isEmpty && keys.all fun k => decide (getCol k t = getCol k s)

/-- `dedupe_on.split(",")`: split on every comma, keeping empty pieces
(as Python does). -/
def splitCommaAux : List Char → List Char → List String
  | [], acc => [String.mk acc.reverse]
  | c :: rest, acc =>
    if c = ',' then String.mk acc.reverse :: splitCommaAux rest []
    else splitCommaAux rest (c :: acc)

/-- `dedupe_on.split(",")` on a `String`. -/
def pySplitComma (s : String) : List String :=
  splitCommaAux s.toList []

/-- `dedupe_on.split(",")` with `str.strip()` applied and empties dropped,
then resolved to schema columns. -/
def colOfName (s : String) : Option Col :=
  if s = "video_id" then some .video_id
  else if s = "subtitle_lang" then some .subtitle_lang
  else if s = "subtitle_text" then some .subtitle_text
  else if s = "source" then some .source
  else if s = "snippet_count" then some .snippet_count
  else if s = "snippets" then some .snippets
  else if s = "errors" then some .errors
  else if s = "ingested_at" then some .ingested_at
  else none

/-- The parsed key-column list of a `dedupe_on` string. -/
def dedupeKeys (dedupe_on : String) : List Col :=
  (((pySplitComma dedupe_on).map pyStrip).filter fun k => k ≠ "").filterMap colOfName

/-- The per-snippet normalisation inside `upsert_subtitles_raw`
(`int(s.get("idx") or 0)` and friends; the text is passed through). -/
def fixSnip (s : Snip) : Snip :=
  ⟨some (s.idx.getD 0), some (s.start.getD 0), some (s.stop.getD 0),
    some (s.duration.getD 0), s.text⟩

/-- The per-row normalisation loop of `upsert_subtitles_raw`: the snippet
list is normalised only when present and non-empty (Python truthiness). -/
def fixRow (r : Row) : Row :=
  { r with
    snippets :=
      match r.snippets with
      | some (x :: xs) => some ((x :: xs).map fixSnip)
      | other => other }

/-- The staged view produced by the MERGE's USING subquery: `ingested_at`
run through `SAFE_CAST` (an arbitrary cast function of the model) and
`snippets` replaced by `snippets_fixed`, the `ARRAY_AGG` over
`UNNEST(IFNULL(snippets, []))`, which aggregates zero rows to NULL. -/
def stagedView (tsCast : Option String → Option String) (r : Row) : Row :=
  { r with
    ingested_at := tsCast r.ingested_at,
    snippets :=
      match r.snippets with
      | none => none
      | some [] => none
      | some l => some l }

/-- `WHEN MATCHED THEN UPDATE SET ...`: every column except `video_id` is
overwritten from the staged row. -/
def applyUpdate (t s : Row) : Row :=
  { video_id := t.video_id
    subtitle_lang := s.subtitle_lang
    subtitle_text := s.subtitle_text
    source := s.source
    snippet_count := s.snippet_count
    snippets := s.snippets
    errors := s.errors
    ingested_at := s.ingested_at }

/-- Semantics of the MERGE statement over a destination row list: `none`
when some destination row is matched by two or more staged rows (the
BigQuery runtime error); otherwise matched destination rows are updated
from their (unique) matching staged row and unmatched staged rows are
appended. -/
def mergeOp (keys : List Col) (dest staging : List Row) : Option (List Row) :=
  if dest.any (fun t => 2 ≤ staging.countP (fun s => rowMatches keys t s)) then
    none
  else
    some ((dest.map fun t =>
        match staging.find? (fun s => rowMatches keys t s) with
        | some s => applyUpdate t s
        | none => t) ++
      staging.filter fun s => !dest.any fun t => rowMatches keys t s)

/-- Warehouse state: the destination table plus the optional `_TMP`
staging table. -/
structure WState where
  dest : List Row
  tmp : Option (List Row)
deriving DecidableEq

/-- `upsert_subtitles_raw(rows, dedupe_on)` as a state transition: a no-op
on an empty batch; otherwise normalise the rows, stage them with the
destination schema, merge, and drop the staging table after a successful
merge. A merge error propagates (`none`). -/
def upsert_subtitles_raw (tsCast : Option String → Option String)
    (st : WState) (rows : List Row) (dedupe_on : String) : Option WState :=
  if rows = [] then some st
  else
    let fixed := rows.map fixRow
    let keys := dedupeKeys dedupe_on
    let view := fixed.map (stagedView tsCast)
    match mergeOp keys st.dest view with
    | none => none
    | some d => some ⟨d, none⟩

/-- The staged view of a raw batch, as used by the merge. -/
def viewOf (tsCast : Option String → Option String) (rows : List Row) : List Row :=
  (rows.map fixRow).map (stagedView tsCast)

/-- A minimal raw row used by upsert witnesses: key `("v", "en")`, text
`"a"`, no snippets. -/
def cexRow1 : Row :=
  ⟨some "v", some "en", some "a", none, none, none, [], none⟩

/-- Same composite key as `cexRow1` but with text `"b"`. -/
def cexRow2 : Row :=
  ⟨some "v", some "en", some "b", none, none, none, [], none⟩

/-- A second-key row used by the C7 witness. -/
def cexRow3 : Row :=
  ⟨some "w", some "ko", some "c", none, none, none, [], none⟩

/-! ### `app/main.py` : the `/ask` query service

BigQuery is the oracle: the retrieval table function call returns a row
list (or raises), and the generation call maps the prompt to a list of
optional summary strings (or raises). The handler's `try` body is
translated with each query counted when issued; the blanket `except`
rewraps any exception as an HTTP 500 payload. -/

/-- One row returned by the `rag_candidates_semantic` retrieval query. -/
structure CandRow where
  hotel_norm : Option String
  aspect : Option String
  sentiment : Option String
  review_summary : Option String
  yt_link : Option String
  video_title : Option String
  channel_title : Option String
  evidence_sec : Option Int
deriving DecidableEq

/-- One citation of the response. -/
structure Citation where
  review : String
  link : Option String
  video_title : Option String
  channel_title : Option String
  evidence_sec : Int
deriving DecidableEq

/-- The JSON body of a successful response. -/
structure Resp where
  summary : String
  citations : List Citation
deriving DecidableEq

/-- The warehouse oracle for one `/ask` request. -/
structure AskBackend where
  retrieve : Except String (List CandRow)
  generate : String → Except String (List (Option String))

/-- The request payload (`question` plus the five filter scalars, already
coerced to their Python-level types). -/
structure Payload where
  question : String
  lang_filter : String
  exclude_paid_ads : Bool
  min_views : Int
  min_subs : Int
  top_k : Int

/-- Outcome of one request: the response or the detail string of the
`HTTPException`, plus how many retrieval and generation queries were
issued against the warehouse. -/
structure AskResult where
  resp : Except String Resp
  nRetrieval : Nat
  nGeneration : Nat

/-- Map one retrieval row to its citation
(`f"{hotel_norm} — {aspect}: {review_summary}".strip()` and
`int(r["evidence_sec"] or 0)`). -/
def mkCitation (r : CandRow) : Citation :=
  ⟨pyStrip (r.hotel_norm.getD "" ++ " — " ++ r.aspect.getD "" ++ ": " ++
      r.review_summary.getD ""),
    r.yt_link, r.video_title, r.channel_title, r.evidence_sec.getD 0⟩

/-- The bullet line built per row for the generation prompt. -/
def mkBullet (r : CandRow) : String :=
  "- " ++ r.hotel_norm.getD "" ++ " — " ++ r.aspect.getD "" ++ " (" ++
    r.sentiment.getD "" ++ "): " ++ r.review_summary.getD ""

/-- The fixed short-circuit summary used when retrieval returns no rows. -/
def noResultsMsg : String :=
  "No review candidates matched your question or filters."

/-- The deterministic generation prompt for a question and bullet list. -/
def buildPrompt (q_text bullets : String) : String :=
  "Answer the user's question in the SAME language as the question (detect automatically). " ++
    "Write 2-3 concise sentences, focusing on key takeaways. " ++
    "Do not fabricate; use only the bullets below.\n" ++
    "Question: " ++ q_text ++ "\n\n" ++
    "Bullets:\n" ++ bullets

/-- `POST /ask`: validate the question, issue the retrieval query, build
citations and bullets, and either short-circuit on zero rows or issue the
single generation query. `summary_rows[0]["summary"]` being NULL raises
(`None.strip()`), which the blanket handler turns into a 500. -/
def ask (p : Payload) (b : AskBackend) : AskResult :=
  if pyStrip p.question = "" then
    ⟨.error "Missing question", 0, 0⟩
  else
    match b.retrieve with
    | .error e => ⟨.error e, 1, 0⟩
    | .ok rows =>
      if rows = [] then
        ⟨.ok ⟨noResultsMsg, rows.map mkCitation⟩, 1, 0⟩
      else
        match b.generate (buildPrompt (pyStrip p.question)
            ("\n".intercalate (rows.map mkBullet))) with
        | .error e => ⟨.error e, 1, 1⟩
        | .ok summary_rows =>
          match summary_rows.head? with
          | none => ⟨.ok ⟨pyStrip "", rows.map mkCitation⟩, 1, 1⟩
          | some none => ⟨.error "AttributeError", 1, 1⟩
          | some (some s) => ⟨.ok ⟨pyStrip s, rows.map mkCitation⟩, 1, 1⟩

/-- A warehouse oracle whose retrieval returns no rows. -/
def w9Backend : AskBackend :=
  { retrieve := .ok []
    generate := fun _ => .error "generation should not be called" }

/-- A concrete request payload. -/
def w9Payload : Payload := ⟨"hi", "en", false, 0, 0, 5⟩

/-! ## Theorems -/

/-! ### Backoff sequence (claim C4) -/

theorem backoffGo_props (cap factor : ℚ) :
    ∀ (n : ℕ) (delay : ℚ), delay ≤ cap →
      (backoffGo cap factor n delay).length = n ∧
      (0 < n → (backoffGo cap factor n delay).getD 0 0 = delay) ∧
      (∀ i, i + 1 < n →
        (backoffGo cap factor n delay).getD (i + 1) 0 =
          min ((backoffGo cap factor n delay).getD i 0 * factor) cap) := by
  intro n
  induction n with
  | zero =>
    intro delay _
    refine ⟨rfl, ?_, ?_⟩
    · intro h; omega
    · intro i hi; omega
  | succ m ih =>
    intro delay h
    obtain ⟨ihlen, ihhead, ihrec⟩ := ih (min (delay * factor) cap) (min_le_right _ _)
    have hmin : min delay cap = delay := min_eq_left h
    refine ⟨by simp [backoffGo, ihlen], by intro _; simp [backoffGo, hmin], ?_⟩
    intro i hi
    cases i with
    | zero =>
      cases m with
      | zero => omega
      | succ m' =>
        simp only [backoffGo, hmin, List.getD_cons_succ, List.getD_cons_zero]
        exact ihhead (Nat.succ_pos _)
    | succ j =>
      have hj : j + 1 < m := by omega
      simp only [backoffGo, hmin, List.getD_cons_succ]
      exact ihrec j hj

/-- Claim **C4** (amended: the first yielded delay is `min(base, cap)`, so the
claim as stated holds under `base ≤ cap`): the backoff utility produces
exactly `max_tries` delays, the first is `base`, each subsequent one is
`min(previous * factor, cap)`, and for `factor > 1` every successive value
is at most `previous * factor` and at most `cap`. -/
theorem c4_backoff_sequence_spec (max_tries : ℕ) (base cap factor : ℚ)
    (hbc : base ≤ cap) :
    (backoff_sequence max_tries base cap factor).length = max_tries ∧
    (0 < max_tries → (backoff_sequence max_tries base cap factor).getD 0 0 = base) ∧
    (∀ i, i + 1 < max_tries →
      (backoff_sequence max_tries base cap factor).getD (i + 1) 0 =
        min ((backoff_sequence max_tries base cap factor).getD i 0 * factor) cap) ∧
    (1 < factor → ∀ i, i + 1 < max_tries →
      (backoff_sequence max_tries base cap factor).getD (i + 1) 0 ≤
        (backoff_sequence max_tries base cap factor).getD i 0 * factor ∧
      (backoff_sequence max_tries base cap factor).getD (i + 1) 0 ≤ cap) := by
  obtain ⟨hlen, hhead, hrec⟩ := backoffGo_props cap factor max_tries base hbc
  refine ⟨hlen, hhead, hrec, ?_⟩
  intro _ i hi
  rw [show backoff_sequence max_tries base cap factor =
    backoffGo cap factor max_tries base from rfl, hrec i hi]
  exact ⟨min_le_left _ _, min_le_right _ _⟩

/-- Claim **C4** counterexample: with `max_tries = 1`, `base = 2`, `cap = 1`,
`factor = 2` the first produced value is `min(base, cap) = 1`, not `base`,
refuting the claim as stated for all parameters. -/
theorem c4_counterexample :
    ¬((backoff_sequence 1 2 1 2).getD 0 0 = 2) := by
  norm_num [backoff_sequence, backoffGo]

/-- Claim **C4** witness: the amended theorem applied at the source defaults
`(3, 1, 16, 2)`. -/
theorem c4_witness :
    (backoff_sequence 3 1 16 2).length = 3 ∧
    (backoff_sequence 3 1 16 2).getD 1 0 =
      min ((backoff_sequence 3 1 16 2).getD 0 0 * 2) 16 := by
  have h := c4_backoff_sequence_spec 3 1 16 2 (by norm_num)
  exact ⟨h.1, h.2.2.1 0 (by norm_num)⟩

/-! ### Language selection policy (claim C1) -/

theorem endsDash_append_dash (s : String) : endsDash (s ++ "-") = true := by
  have hl : (s ++ "-").toList = s.toList ++ ['-'] := by
    show (s ++ "-").data = s.data ++ ['-']
    rw [String.data_append]
  simp [endsDash, hl, List.getLast?_concat]

theorem endsDash_adot (s : String) (h : endsDash s = false) :
    endsDash ("a." ++ s) = false := by
  simp only [endsDash] at h ⊢
  have hl : ("a." ++ s).toList = ['a', '.'] ++ s.toList := by
    show ("a." ++ s).data = ['a', '.'] ++ s.data
    rw [String.data_append]
  rw [hl, List.getLast?_append]
  cases hg : s.toList.getLast? with
  | none => simp
  | some x =>
    rw [hg] at h
    simpa using h

theorem bestLangScan_nil (keys : List String) : bestLangScan keys [] = none := rfl

theorem bestLangScan_exact (keys : List String) (pat : String) (rest : List String)
    (h : endsDash pat = false) :
    bestLangScan keys (pat :: rest) =
      (if keys.contains pat then some pat else none).orElse
        fun _ => bestLangScan keys rest := by
  simp only [bestLangScan, h, Bool.false_eq_true, if_false]
  cases keys.contains pat <;> rfl

theorem bestLangScan_variant (keys : List String) (pat : String) (rest : List String)
    (h : endsDash pat = true) :
    bestLangScan keys (pat :: rest) =
      (keys.find? fun k => pat.toList.isPrefixOf k.toList).orElse
        fun _ => bestLangScan keys rest := by
  simp only [bestLangScan, h, eq_self_iff_true, if_true]
  cases keys.find? fun k => pat.toList.isPrefixOf k.toList <;> rfl

/-- Claim **C1** (amended: restricted to preferred and fallback codes that do not
themselves end in `"-"`): the language selection function implements the
six-step first-match order of the specification — exact preferred key,
first key with prefix `"{preferred}-"` in iteration order, exact
`"a.{preferred}"`, then the same three checks for the fallback — and the
two concrete examples of the claim hold. -/
theorem c1_best_lang_key_spec :
    (∀ (α : Type) (available : List (String × α)) (pref fb : String),
        endsDash pref = false → endsDash fb = false →
        best_lang_key available pref fb = specLangSelect available pref fb) ∧
    best_lang_key [("en", ()), ("en-US", ()), ("a.en", ()), ("ko", ())] "en" "ko" =
      some "en" ∧
    best_lang_key [("fr", ())] "en" "ko" = none := by
  refine ⟨?_, by decide, by decide⟩
  intro α available pref fb hp hf
  simp only [best_lang_key, specLangSelect,
    bestLangScan_exact _ _ _ hp,
    bestLangScan_variant _ _ _ (endsDash_append_dash pref),
    bestLangScan_exact _ _ _ (endsDash_adot pref hp),
    bestLangScan_exact _ _ _ hf,
    bestLangScan_variant _ _ _ (endsDash_append_dash fb),
    bestLangScan_exact _ _ _ (endsDash_adot fb hf),
    bestLangScan_nil]
  cases (available.map Prod.fst).contains pref <;>
    cases (available.map Prod.fst).find? fun k => (pref ++ "-").toList.isPrefixOf k.toList <;>
    cases (available.map Prod.fst).contains ("a." ++ pref) <;>
    cases (available.map Prod.fst).contains fb <;>
    cases (available.map Prod.fst).find? fun k => (fb ++ "-").toList.isPrefixOf k.toList <;>
    cases (available.map Prod.fst).contains ("a." ++ fb) <;>
    rfl

/-- Claim **C1** counterexample: with the single available key `"en-US"` and the
(lower-case) preferred code `"en-"`, the code's first pattern `"en-"`
ends in `"-"` and is treated as a prefix scan, returning `"en-US"`,
whereas the claim's first check (exact key equal to the preferred code)
fails and all its later checks fail too, so the claimed selection order
yields no match. -/
theorem c1_counterexample :
    best_lang_key [("en-US", ())] "en-" "ko" = some "en-US" ∧
    specLangSelect [("en-US", ())] "en-" "ko" = none := by
  constructor
  · decide
  · decide

/-- Claim **C1** witness: the amended equivalence applied at the claim's main
example. -/
theorem c1_witness :
    best_lang_key [("en", ()), ("en-US", ()), ("a.en", ()), ("ko", ())] "en" "ko" =
      specLangSelect [("en", ()), ("en-US", ()), ("a.en", ()), ("ko", ())] "en" "ko" := by
  exact c1_best_lang_key_spec.1 Unit
    [("en", ()), ("en-US", ()), ("a.en", ()), ("ko", ())] "en" "ko"
    (by decide) (by decide)

/-! ### JSON3 structured-event parsing (claim C2) -/

/-- The build of a segment from an index paired with a kept event value. -/
theorem json3Loop_eq (evs : List Json3Event) :
    ∀ n, json3Loop evs n =
      (((evs.filterMap json3Keep).enumFrom n).map fun p =>
          ⟨p.1, p.2.1, p.2.2.1, p.2.2.2⟩,
        (evs.filterMap json3Keep).map fun q => q.2.2) := by
  induction evs with
  | nil => intro n; simp [json3Loop]
  | cons ev rest ih =>
    intro n
    cases hk : json3Keep ev with
    | none =>
      simp only [json3Loop, hk, List.filterMap_cons_none hk]
      exact ih n
    | some v =>
      obtain ⟨st, du, tx⟩ := v
      simp only [json3Loop, hk, List.filterMap_cons_some hk, List.enumFrom_cons,
        List.map_cons, ih (n + 1)]

theorem json3Keep_text_ne (ev : Json3Event) (q : ℚ × ℚ × String)
    (h : json3Keep ev = some q) : q.2.2 ≠ "" := by
  unfold json3Keep at h
  by_cases h1 : ev.segs.getD [] = []
  · simp [h1] at h
  · simp only [h1, if_false] at h
    by_cases h2 : pyStrip (replaceNl (String.join ((ev.segs.getD []).map
        fun s => s.utf8.getD ""))) = ""
    · simp [h2] at h
    · simp only [h2, if_false, Option.some.injEq] at h
      subst h
      exact h2

/-- Claim **C2**: `parse_json3_events` retains exactly the events kept by the
loop-body predicate (fragment list present and non-empty, normalised text
non-empty); each retained event becomes a segment carrying the millisecond
fields divided by 1000; the indices are the contiguous zero-based
enumeration of the retained events in original order; and no emitted
segment has empty text. -/
theorem c2_parse_json3_events_spec (evs : List Json3Event) :
    (parse_json3_events evs).1 =
      ((evs.filterMap json3Keep).enum.map fun p => ⟨p.1, p.2.1, p.2.2.1, p.2.2.2⟩) ∧
    (parse_json3_events evs).1.map Seg.idx =
      List.range (parse_json3_events evs).1.length ∧
    (∀ s ∈ (parse_json3_events evs).1, s.text ≠ "") ∧
    (parse_json3_events evs).2 = " ".intercalate ((parse_json3_events evs).1.map Seg.text) := by
  have hloop := json3Loop_eq evs 0
  have h1 : (parse_json3_events evs).1 =
      ((evs.filterMap json3Keep).enum.map fun p => ⟨p.1, p.2.1, p.2.2.1, p.2.2.2⟩) := by
    simp only [parse_json3_events, hloop, List.enum]
  refine ⟨h1, ?_, ?_, ?_⟩
  · rw [h1, List.map_map]
    have hcomp : (Seg.idx ∘ fun p : ℕ × ℚ × ℚ × String =>
        (⟨p.1, p.2.1, p.2.2.1, p.2.2.2⟩ : Seg)) = Prod.fst := rfl
    rw [hcomp, List.enum_map_fst, List.length_map, List.enum_length]
  · intro s hs
    rw [h1] at hs
    obtain ⟨p, hp, hps⟩ := List.mem_map.1 hs
    have hmem : p.2 ∈ List.filterMap json3Keep evs := by
      have h2 : p.2 ∈ (List.filterMap json3Keep evs).enum.map Prod.snd :=
        List.mem_map.2 ⟨p, hp, rfl⟩
      rwa [List.enum_map_snd] at h2
    obtain ⟨ev, _, hev⟩ := List.mem_filterMap.1 hmem
    have hne := json3Keep_text_ne ev p.2 hev
    rw [← hps]
    exact hne
  · have h3 : (parse_json3_events evs).1.map Seg.text =
        (List.filterMap json3Keep evs).map (fun q => q.2.2) := by
      rw [h1, List.map_map]
      have hcomp : (Seg.text ∘ fun p : ℕ × ℚ × ℚ × String =>
          (⟨p.1, p.2.1, p.2.2.1, p.2.2.2⟩ : Seg)) =
          ((fun q : ℚ × ℚ × String => q.2.2) ∘ Prod.snd) := rfl
      rw [hcomp, ← List.map_map, List.enum_map_snd]
    rw [h3]
    simp only [parse_json3_events, hloop]

/-- Claim **C2** witness: the characterisation applied to a concrete event list
containing a kept event, a fragment-free event and an empty-text event. -/
theorem c2_witness :
    (parse_json3_events
        [⟨some [⟨some "hi"⟩], some 0, some 1000⟩,
         ⟨none, some 5000, some 1000⟩,
         ⟨some [⟨some " \n "⟩], some 6000, some 1000⟩]).1.map Seg.idx =
      List.range (parse_json3_events
        [⟨some [⟨some "hi"⟩], some 0, some 1000⟩,
         ⟨none, some 5000, some 1000⟩,
         ⟨some [⟨some " \n "⟩], some 6000, some 1000⟩]).1.length ∧
    ((⟨0, 0, 1, "hi"⟩ : Seg) ∈ (parse_json3_events
        [⟨some [⟨some "hi"⟩], some 0, some 1000⟩,
         ⟨none, some 5000, some 1000⟩,
         ⟨some [⟨some " \n "⟩], some 6000, some 1000⟩]).1 →
      (⟨0, 0, 1, "hi"⟩ : Seg).text ≠ "") := by
  refine ⟨?_, ?_⟩
  · exact (c2_parse_json3_events_spec _).2.1
  · exact (c2_parse_json3_events_spec _).2.2.1 ⟨0, 0, 1, "hi"⟩

/-! ### WebVTT cue parsing (claim C3) -/

theorem takeBody_len : ∀ ls : List (List Char), (takeBody ls).2.length ≤ ls.length := by
  intro ls
  induction ls with
  | nil => simp [takeBody]
  | cons l ls ih =>
    simp only [takeBody]
    by_cases hc : (l ≠ [] && !containsArrow l) = true
    · rw [if_pos hc]
      exact Nat.le_succ_of_le ih
    · rw [if_neg hc]

theorem takeBody_no_note : ∀ ls : List (List Char), ∀ l ∈ (takeBody ls).1,
    ¬(['N', 'O', 'T', 'E'].isPrefixOf l = true) := by
  intro ls
  induction ls with
  | nil => simp [takeBody]
  | cons l ls ih =>
    simp only [takeBody]
    by_cases hc : (l ≠ [] && !containsArrow l) = true
    · rw [if_pos hc]
      by_cases hn : ['N', 'O', 'T', 'E'].isPrefixOf l = true
      · rw [if_pos hn]
        exact ih
      · rw [if_neg hn]
        intro x hx
        rcases List.mem_cons.1 hx with h | h
        · subst h; exact hn
        · exact ih x h
    · rw [if_neg hc]
      simp

theorem vttLoop_props : ∀ (fuel : ℕ) (lines : List (List Char)) (idx : ℕ),
    lines.length ≤ fuel →
      ((vttLoop fuel lines idx).1.map Seg.idx =
        List.range' idx (vttLoop fuel lines idx).1.length) ∧
      (∀ s ∈ (vttLoop fuel lines idx).1, s.text ≠ "" ∧ 0 ≤ s.dur_sec) ∧
      ((vttLoop fuel lines idx).2 = (vttLoop fuel lines idx).1.map Seg.text) := by
  intro fuel
  induction fuel with
  | zero =>
    intro lines idx _
    simp [vttLoop]
  | succ m ih =>
    intro lines idx h
    cases lines with
    | nil => simp [vttLoop]
    | cons ln rest =>
      have hrest : rest.length ≤ m := by
        simpa using Nat.le_of_succ_le_succ (by simpa using h)
      by_cases ha : containsArrow ln = true
      · simp only [vttLoop]
        rw [if_pos ha]
        cases hts : parseTsLine ln with
        | none =>
          simp only [hts]
          exact ih rest idx hrest
        | some pr =>
          obtain ⟨st, en⟩ := pr
          simp only [hts]
          have hbody : (takeBody rest).2.length ≤ m :=
            le_trans (takeBody_len rest) hrest
          by_cases hne : pyStrip (replaceNl
              (" ".intercalate ((takeBody rest).1.map fun l => String.mk l))) = ""
          · rw [if_neg (fun hc => hc hne)]
            exact ih (takeBody rest).2 idx hbody
          · rw [if_pos hne]
            obtain ⟨ih1, ih2, ih3⟩ := ih (takeBody rest).2 (idx + 1) hbody
            refine ⟨?_, ?_, ?_⟩
            · simp only [List.map_cons, List.length_cons, List.range'_succ]
              rw [ih1]
            · intro s hs
              rcases List.mem_cons.1 hs with hh | hh
              · subst hh
                exact ⟨hne, le_max_left 0 (en - st)⟩
              · exact ih2 s hh
            · simp only [List.map_cons]
              rw [ih3]
      · simp only [vttLoop]
        rw [if_neg ha]
        exact ih rest idx hrest

theorem vtt_example_note_eq :
    parse_webvtt "00:00:01.000 --> 00:00:02.000\nhello\nNOTE this is a comment\nworld\n" =
      ([⟨0, 1, 1, "hello world"⟩], "hello world") := by
  have h : parse_webvtt
      "00:00:01.000 --> 00:00:02.000\nhello\nNOTE this is a comment\nworld\n" =
      ([⟨0,
          hmsToSec (10 * digitVal '0' + digitVal '0') (10 * digitVal '0' + digitVal '0')
            ((10 * digitVal '0' + digitVal '1' : ℚ) +
              (100 * digitVal '0' + 10 * digitVal '0' + digitVal '0' : ℚ) / 1000),
          max 0
            (hmsToSec (10 * digitVal '0' + digitVal '0') (10 * digitVal '0' + digitVal '0')
              ((10 * digitVal '0' + digitVal '2' : ℚ) +
                (100 * digitVal '0' + 10 * digitVal '0' + digitVal '0' : ℚ) / 1000) -
              hmsToSec (10 * digitVal '0' + digitVal '0') (10 * digitVal '0' + digitVal '0')
              ((10 * digitVal '0' + digitVal '1' : ℚ) +
                (100 * digitVal '0' + 10 * digitVal '0' + digitVal '0' : ℚ) / 1000)),
          "hello world"⟩], "hello world") := rfl
  rw [h]
  have d0 : digitVal '0' = 0 := by decide
  have d1 : digitVal '1' = 1 := by decide
  have d2 : digitVal '2' = 2 := by decide
  norm_num [hmsToSec, d0, d1, d2]

theorem vtt_example_neg_eq :
    parse_webvtt "00:00:05.000 --> 00:00:02.000\nhi\n" =
      ([⟨0, 5, 0, "hi"⟩], "hi") := by
  have h : parse_webvtt "00:00:05.000 --> 00:00:02.000\nhi\n" =
      ([⟨0,
          hmsToSec (10 * digitVal '0' + digitVal '0') (10 * digitVal '0' + digitVal '0')
            ((10 * digitVal '0' + digitVal '5' : ℚ) +
              (100 * digitVal '0' + 10 * digitVal '0' + digitVal '0' : ℚ) / 1000),
          max 0
            (hmsToSec (10 * digitVal '0' + digitVal '0') (10 * digitVal '0' + digitVal '0')
              ((10 * digitVal '0' + digitVal '2' : ℚ) +
                (100 * digitVal '0' + 10 * digitVal '0' + digitVal '0' : ℚ) / 1000) -
              hmsToSec (10 * digitVal '0' + digitVal '0') (10 * digitVal '0' + digitVal '0')
              ((10 * digitVal '0' + digitVal '5' : ℚ) +
                (100 * digitVal '0' + 10 * digitVal '0' + digitVal '0' : ℚ) / 1000)),
          "hi"⟩], "hi") := rfl
  rw [h]
  have d0 : digitVal '0' = 0 := by decide
  have d2 : digitVal '2' = 2 := by decide
  have d5 : digitVal '5' = 5 := by decide
  norm_num [hmsToSec, d0, d2, d5]

/-- Claim **C3**: the cue parser emits a cue only when its joined body text is
non-empty (no emitted segment has empty text), never produces a negative
duration, assigns contiguous zero-based indices over emitted cues only;
`takeBody` excludes body lines beginning with `NOTE` from the joined text;
timestamps convert as `h * 3600 + m * 60 + s` with fractional seconds; and
on a concrete cue with `end < start` the duration is floored at zero. -/
theorem c3_parse_webvtt_spec :
    (∀ vtt : String,
        (parse_webvtt vtt).1.map Seg.idx = List.range (parse_webvtt vtt).1.length ∧
        ∀ s ∈ (parse_webvtt vtt).1, s.text ≠ "" ∧ 0 ≤ s.dur_sec) ∧
    (∀ ls : List (List Char), ∀ l ∈ (takeBody ls).1,
        ¬(['N', 'O', 'T', 'E'].isPrefixOf l = true)) ∧
    (∀ (h m : ℕ) (s : ℚ), hmsToSec h m s = h * 3600 + m * 60 + s) ∧
    parse_webvtt "00:00:01.000 --> 00:00:02.000\nhello\nNOTE this is a comment\nworld\n" =
      ([⟨0, 1, 1, "hello world"⟩], "hello world") ∧
    parse_webvtt "00:00:05.000 --> 00:00:02.000\nhi\n" = ([⟨0, 5, 0, "hi"⟩], "hi") := by
  refine ⟨?_, takeBody_no_note, fun _ _ _ => rfl, vtt_example_note_eq, vtt_example_neg_eq⟩
  intro vtt
  obtain ⟨h1, h2, _⟩ := vttLoop_props
    ((pySplitlines vtt).map cleanVttLine).length
    ((pySplitlines vtt).map cleanVttLine) 0 (Nat.le_refl _)
  constructor
  · rw [List.range_eq_range']
    exact h1
  · exact h2

/-- Claim **C3** witness: the universal part applied at the concrete
negative-duration input. -/
theorem c3_witness :
    (parse_webvtt "00:00:05.000 --> 00:00:02.000\nhi\n").1.map Seg.idx =
      List.range (parse_webvtt "00:00:05.000 --> 00:00:02.000\nhi\n").1.length ∧
    (((⟨0, 5, 0, "hi"⟩ : Seg) ∈ (parse_webvtt "00:00:05.000 --> 00:00:02.000\nhi\n").1 →
      (⟨0, 5, 0, "hi"⟩ : Seg).text ≠ "" ∧ (0 : ℚ) ≤ (⟨0, 5, 0, "hi"⟩ : Seg).dur_sec)) := by
  refine ⟨(c3_parse_webvtt_spec.1 _).1, ?_⟩
  intro hmem
  exact (c3_parse_webvtt_spec.1 _).2 _ hmem

/-! ### Acquisition orchestrator (claims C5, C6, C10) -/

theorem parse_json3_events_props (evs : List Json3Event) :
    (parse_json3_events evs).1.map Seg.idx =
      List.range (parse_json3_events evs).1.length ∧
    (parse_json3_events evs).2 =
      " ".intercalate ((parse_json3_events evs).1.map Seg.text) := by
  have hloop := json3Loop_eq evs 0
  have h1 : (parse_json3_events evs).1 =
      ((evs.filterMap json3Keep).enum.map fun p => ⟨p.1, p.2.1, p.2.2.1, p.2.2.2⟩) := by
    simp only [parse_json3_events, hloop, List.enum]
  constructor
  · rw [h1, List.map_map]
    have hcomp : (Seg.idx ∘ fun p : ℕ × ℚ × ℚ × String =>
        (⟨p.1, p.2.1, p.2.2.1, p.2.2.2⟩ : Seg)) = Prod.fst := rfl
    rw [hcomp, List.enum_map_fst, List.length_map, List.enum_length]
  · have h3 : (parse_json3_events evs).1.map Seg.text =
        (List.filterMap json3Keep evs).map (fun q => q.2.2) := by
      rw [h1, List.map_map]
      have hcomp : (Seg.text ∘ fun p : ℕ × ℚ × ℚ × String =>
          (⟨p.1, p.2.1, p.2.2.1, p.2.2.2⟩ : Seg)) =
          ((fun q : ℚ × ℚ × String => q.2.2) ∘ Prod.snd) := rfl
      rw [hcomp, ← List.map_map, List.enum_map_snd]
    rw [h3]
    simp only [parse_json3_events, hloop]

theorem parse_webvtt_props (vtt : String) :
    (parse_webvtt vtt).1.map Seg.idx = List.range (parse_webvtt vtt).1.length ∧
    (parse_webvtt vtt).2 = " ".intercalate ((parse_webvtt vtt).1.map Seg.text) := by
  obtain ⟨h1, _, h3⟩ := vttLoop_props
    ((pySplitlines vtt).map cleanVttLine).length
    ((pySplitlines vtt).map cleanVttLine) 0 (Nat.le_refl _)
  constructor
  · rw [List.range_eq_range']
    exact h1
  · show " ".intercalate (vttLoop _ _ 0).2 = _
    rw [h3]
    rfl

theorem stepACore_shape (info : InfoA) (vid pref fb : String) :
    ∀ r0, stepACore info vid pref fb = some r0 →
      ∃ k parsed, parsed.1 ≠ [] ∧
        parsed.2 = " ".intercalate (parsed.1.map Seg.text) ∧
        parsed.1.map Seg.idx = List.range parsed.1.length ∧
        r0 = packResult vid k parsed := by
  intro r0 h
  simp only [stepACore] at h
  split at h
  · simp at h
  · split at h
    · simp at h
    · rename_i k hk
      split at h
      · simp at h
      · split at h
        · simp at h
        · rename_i j hj
          split at h
          · simp at h
          · rename_i hne
            have hr0 := Option.some.inj h
            exact ⟨k, parse_json3_events j.events, hne,
              (parse_json3_events_props j.events).2,
              (parse_json3_events_props j.events).1, hr0.symm⟩

theorem stepBJson3_shape (b : Backend) (vid k : String) (u : Option String) :
    ∀ r0, stepBJson3 b vid k u = some r0 →
      ∃ parsed, parsed.1 ≠ [] ∧
        parsed.2 = " ".intercalate (parsed.1.map Seg.text) ∧
        parsed.1.map Seg.idx = List.range parsed.1.length ∧
        r0 = packResult vid k parsed := by
  intro r0 h
  simp only [stepBJson3] at h
  split at h
  · simp at h
  · split at h
    · simp at h
    · split at h
      · simp at h
      · split at h
        · simp at h
        · split at h
          · simp at h
          · rename_i j hj
            split at h
            · simp at h
            · rename_i hne
              have hr0 := Option.some.inj h
              exact ⟨parse_json3_events j.events, hne,
                (parse_json3_events_props j.events).2,
                (parse_json3_events_props j.events).1, hr0.symm⟩

theorem stepBVtt_shape (b : Backend) (vid k : String) (u : Option String) :
    ∀ r0, stepBVtt b vid k u = some r0 →
      ∃ parsed, parsed.1 ≠ [] ∧
        parsed.2 = " ".intercalate (parsed.1.map Seg.text) ∧
        parsed.1.map Seg.idx = List.range parsed.1.length ∧
        r0 = packResult vid k parsed := by
  intro r0 h
  simp only [stepBVtt] at h
  split at h
  · simp at h
  · split at h
    · simp at h
    · split at h
      · simp at h
      · rename_i txt htxt
        split at h
        · simp at h
        · split at h
          · simp at h
          · rename_i hne
            have hr0 := Option.some.inj h
            exact ⟨parse_webvtt txt, hne,
              (parse_webvtt_props txt).2,
              (parse_webvtt_props txt).1, hr0.symm⟩

theorem stepBCore_shape (b : Backend) (info : InfoB) (vid pref fb : String) :
    ((stepBCore b info vid pref fb).1 = [] ∧ (stepBCore b info vid pref fb).2 = none) ∨
    ∃ k parsed, parsed.1 ≠ [] ∧
      parsed.2 = " ".intercalate (parsed.1.map Seg.text) ∧
      parsed.1.map Seg.idx = List.range parsed.1.length ∧
      stepBCore b info vid pref fb =
        ((packResult vid k parsed).1, some (packResult vid k parsed).2) := by
  simp only [stepBCore]
  set pool := if info.subtitles ≠ [] then info.subtitles else info.automatic_captions
    with hpool
  split
  · left; exact ⟨rfl, rfl⟩
  · split
    · left; exact ⟨rfl, rfl⟩
    · rename_i k hk
      split
      · left; exact ⟨rfl, rfl⟩
      · split
        · rename_i r0 hj
          obtain ⟨parsed, hne, hsnd, hidx, hr0⟩ := stepBJson3_shape b vid k _ r0 hj
          right
          exact ⟨k, parsed, hne, hsnd, hidx, by rw [hr0]⟩
        · split
          · rename_i r0 hv
            obtain ⟨parsed, hne, hsnd, hidx, hr0⟩ := stepBVtt_shape b vid k _ r0 hv
            right
            exact ⟨k, parsed, hne, hsnd, hidx, by rw [hr0]⟩
          · left; exact ⟨rfl, rfl⟩

theorem stepB_shape (b : Backend) (vid pref fb : String) :
    ((stepB b vid pref fb).1 = [] ∧ (stepB b vid pref fb).2 = none) ∨
    ∃ k parsed, parsed.1 ≠ [] ∧
      parsed.2 = " ".intercalate (parsed.1.map Seg.text) ∧
      parsed.1.map Seg.idx = List.range parsed.1.length ∧
      stepB b vid pref fb =
        ((packResult vid k parsed).1, some (packResult vid k parsed).2) := by
  unfold stepB tryB
  cases b.extractB with
  | error e => left; exact ⟨rfl, rfl⟩
  | ok info => exact stepBCore_shape b info vid pref fb

theorem fetch_result_shape (b : Backend) (vid pref fb : String) :
    ∀ r, fetch_subs_for_video b vid pref fb = .ok r →
      (r.1 = [] ∧ r.2 = none) ∨
      ∃ k parsed, parsed.1 ≠ [] ∧
        parsed.2 = " ".intercalate (parsed.1.map Seg.text) ∧
        parsed.1.map Seg.idx = List.range parsed.1.length ∧
        r = ((packResult vid k parsed).1, some (packResult vid k parsed).2) := by
  intro r h
  unfold fetch_subs_for_video at h
  cases htA : tryA b vid pref fb with
  | error e =>
    rw [htA] at h
    have hr := Except.ok.inj h
    subst hr
    exact stepB_shape b vid pref fb
  | ok o =>
    rw [htA] at h
    cases o with
    | none =>
      have hr := Except.ok.inj h
      subst hr
      exact stepB_shape b vid pref fb
    | some r0 =>
      have hr := Except.ok.inj h
      subst hr
      unfold tryA at htA
      cases hEA : b.extractA with
      | error e => rw [hEA] at htA; cases htA
      | ok info =>
        rw [hEA] at htA
        have h3 := Except.ok.inj htA
        obtain ⟨k, parsed, hne, hsnd, hidx, hr0⟩ := stepACore_shape info vid pref fb r0 h3
        right
        exact ⟨k, parsed, hne, hsnd, hidx, by rw [hr0]⟩

/-- Claim **C5**: on every successful acquisition, the full row's `full_text`
equals the space-join of the returned segments' texts in order, truncated
to at most 1,000,000 characters (and its length never exceeds 1,000,000). -/
theorem c5_full_text_roundtrip (b : Backend) (vid pref fb : String)
    (segs : List SegRow) (fl : FullRow)
    (h : fetch_subs_for_video b vid pref fb = .ok (segs, some fl)) :
    fl.full_text = strTake 1000000 (" ".intercalate (segs.map SegRow.text)) ∧
    fl.full_text.length ≤ 1000000 := by
  rcases fetch_result_shape b vid pref fb (segs, some fl) h with
    ⟨_, h2⟩ | ⟨k, parsed, hne, hsnd, hidx, heq⟩
  · simp at h2
  · have hsegs : segs = (packResult vid k parsed).1 := congrArg Prod.fst heq
    have hfl : fl = (packResult vid k parsed).2 := by
      have h4 := congrArg Prod.snd heq
      simpa using h4
    subst hsegs
    subst hfl
    constructor
    · show strTake 1000000 parsed.2 =
        strTake 1000000 (" ".intercalate ((parsed.1.map (addMeta vid k)).map SegRow.text))
      have hmap : (parsed.1.map (addMeta vid k)).map SegRow.text = parsed.1.map Seg.text := by
        rw [List.map_map]; rfl
      rw [hmap, ← hsnd]
    · show (strTake 1000000 parsed.2).length ≤ 1000000
      have hlen : (strTake 1000000 parsed.2).length =
          (parsed.2.toList.take 1000000).length := rfl
      rw [hlen, List.length_take]
      exact min_le_left _ _

/-- Claim **C5** witness: the round-trip applied to a backend with one inline
English JSON3 track. -/
theorem c5_witness :
    fetch_subs_for_video wBackendA "v" "en" "ko" = .ok (wPairA.1, some wPairA.2) ∧
    wPairA.2.full_text = strTake 1000000 (" ".intercalate (wPairA.1.map SegRow.text)) := by
  have h : fetch_subs_for_video wBackendA "v" "en" "ko" =
      .ok (wPairA.1, some wPairA.2) := rfl
  exact ⟨h, (c5_full_text_roundtrip wBackendA "v" "en" "ko" wPairA.1 wPairA.2 h).1⟩

/-- Claim **C6**: acquisition always returns a value — no exception propagates to
the caller for any backend behaviour; an exception in the inline attempt
(step 1) still runs the URL-discovery fallback (the result is exactly the
fallback stage's result); and an exception in the fallback extraction
degrades to the empty outcome rather than propagating. -/
theorem c6_no_exception_propagation (b : Backend) (vid pref fb : String) :
    (fetch_subs_for_video b vid pref fb).isOk = true ∧
    (∀ e, b.extractA = .error e →
      fetch_subs_for_video b vid pref fb = .ok (stepB b vid pref fb)) ∧
    (∀ e, b.extractB = .error e → stepB b vid pref fb = ([], none)) := by
  refine ⟨?_, ?_, ?_⟩
  · unfold fetch_subs_for_video
    cases htA : tryA b vid pref fb with
    | error e => rfl
    | ok o => cases o <;> rfl
  · intro e he
    unfold fetch_subs_for_video tryA
    rw [he]
  · intro e he
    unfold stepB tryB
    rw [he]

/-- Claim **C6** witness: with a backend whose inline extraction raises, the
result is the fallback stage's value, which here is a non-empty success —
and no exception escapes. -/
theorem c6_witness :
    (fetch_subs_for_video wBackendB "v" "en" "ko").isOk = true ∧
    fetch_subs_for_video wBackendB "v" "en" "ko" = .ok (stepB wBackendB "v" "en" "ko") ∧
    stepB wBackendB "v" "en" "ko" = (wPairA.1, some wPairA.2) := by
  have h := c6_no_exception_propagation wBackendB "v" "en" "ko"
  exact ⟨h.1, h.2.1 "simulated extraction failure" rfl, rfl⟩

/-- Claim **C10**: the acquisition entry point returns `(segments, full)` with
`full = none` exactly when `segments` is empty; on success every segment
row and the full row carry the requested video id and one common resolved
language key, and each segment's `idx` is its position in the list. -/
theorem c10_fetch_invariants (b : Backend) (vid pref fb : String)
    (segs : List SegRow) (flOpt : Option FullRow)
    (h : fetch_subs_for_video b vid pref fb = .ok (segs, flOpt)) :
    (flOpt = none ↔ segs = []) ∧
    (∀ fl, flOpt = some fl → fl.video_id = vid ∧
      (∀ srow ∈ segs, srow.video_id = vid ∧ srow.lang = fl.lang) ∧
      segs.map SegRow.idx = List.range segs.length) := by
  rcases fetch_result_shape b vid pref fb (segs, flOpt) h with
    ⟨h1, h2⟩ | ⟨k, parsed, hne, hsnd, hidx, heq⟩
  · simp only at h1 h2
    subst h1
    subst h2
    refine ⟨by simp, ?_⟩
    intro fl hfl
    cases hfl
  · have hsegs : segs = (packResult vid k parsed).1 := congrArg Prod.fst heq
    have hfl2 : flOpt = some (packResult vid k parsed).2 := congrArg Prod.snd heq
    subst hsegs
    subst hfl2
    constructor
    · constructor
      · intro hc; cases hc
      · intro hc
        exact absurd (List.map_eq_nil_iff.1 hc) hne
    · intro fl hfl
      have hfleq := Option.some.inj hfl
      subst hfleq
      refine ⟨rfl, ?_, ?_⟩
      · intro srow hsrow
        obtain ⟨sg, _, hsg⟩ := List.mem_map.1 hsrow
        rw [← hsg]
        exact ⟨rfl, rfl⟩
      · show ((parsed.1.map (addMeta vid k)).map SegRow.idx) =
          List.range (parsed.1.map (addMeta vid k)).length
        rw [List.map_map, List.length_map]
        have hcomp : (SegRow.idx ∘ addMeta vid k) = Seg.idx := rfl
        rw [hcomp, hidx]

/-- Claim **C10** witness: the invariants applied to the URL-discovery success
of the fallback backend. -/
theorem c10_witness :
    fetch_subs_for_video wBackendB "v" "en" "ko" = .ok (wPairA.1, some wPairA.2) ∧
    (some wPairA.2 = none ↔ wPairA.1 = []) ∧
    wPairA.2.video_id = "v" := by
  have hf : fetch_subs_for_video wBackendB "v" "en" "ko" =
      .ok (wPairA.1, some wPairA.2) := rfl
  have h := c10_fetch_invariants wBackendB "v" "en" "ko" wPairA.1 (some wPairA.2) hf
  exact ⟨hf, h.1, (h.2 wPairA.2 rfl).1⟩

/-! ### Upsert loader (claims C7, C8) -/

theorem rowMatches_iff (keys : List Col) (hK : keys ≠ []) (t s : Row) :
    rowMatches keys t s = true ↔ ∀ k ∈ keys, getCol k t = getCol k s := by
  simp [rowMatches, List.all_eq_true, List.isEmpty_iff, hK]

/-- Claim **C7**: the upsert loader is a no-op on an empty batch; the default
`dedupe_on` parses to the two-column composite key; and on a non-empty
batch that merges successfully with a key list containing `video_id`, the
staging table is gone afterwards, destination rows matched by no staged row
survive unchanged, a destination row matched by a staged row is replaced
by the null-safe-keyed update of that row, staged rows matching no
destination row are inserted whole, and the update keeps every key column
of the destination row while taking every non-key column from the staged
row. -/
theorem c7_upsert_loader (tsCast : Option String → Option String) (st : WState)
    (rows : List Row) (dk : String) :
    upsert_subtitles_raw tsCast st [] dk = some st ∧
    dedupeKeys "video_id,subtitle_lang" = [Col.video_id, Col.subtitle_lang] ∧
    (rows ≠ [] → Col.video_id ∈ dedupeKeys dk →
      ∀ st', upsert_subtitles_raw tsCast st rows dk = some st' →
        st'.tmp = none ∧
        (∀ t ∈ st.dest,
          (∀ s ∈ viewOf tsCast rows, rowMatches (dedupeKeys dk) t s = false) →
          t ∈ st'.dest) ∧
        (∀ t ∈ st.dest, ∀ s,
          (viewOf tsCast rows).find? (fun s2 => rowMatches (dedupeKeys dk) t s2) =
            some s →
          applyUpdate t s ∈ st'.dest) ∧
        (∀ s ∈ viewOf tsCast rows,
          (∀ t ∈ st.dest, rowMatches (dedupeKeys dk) t s = false) →
          s ∈ st'.dest) ∧
        (∀ t s, rowMatches (dedupeKeys dk) t s = true →
          ∀ k ∈ dedupeKeys dk, getCol k (applyUpdate t s) = getCol k t) ∧
        (∀ t s k, k ∉ dedupeKeys dk → getCol k (applyUpdate t s) = getCol k s)) := by
  refine ⟨rfl, by decide, ?_⟩
  intro hrows hvk st' hup
  simp only [upsert_subtitles_raw] at hup
  rw [if_neg hrows] at hup
  cases hm : mergeOp (dedupeKeys dk) st.dest ((rows.map fixRow).map (stagedView tsCast)) with
  | none => rw [hm] at hup; cases hup
  | some d =>
    rw [hm] at hup
    have hst' := Option.some.inj hup
    subst hst'
    have hd : d = (st.dest.map fun t =>
        match ((rows.map fixRow).map (stagedView tsCast)).find?
            (fun s => rowMatches (dedupeKeys dk) t s) with
        | some s => applyUpdate t s
        | none => t) ++
        ((rows.map fixRow).map (stagedView tsCast)).filter
          (fun s => !st.dest.any fun t => rowMatches (dedupeKeys dk) t s) := by
      simp only [mergeOp] at hm
      split at hm
      · cases hm
      · exact (Option.some.inj hm).symm
    subst hd
    refine ⟨rfl, ?_, ?_, ?_, ?_, ?_⟩
    · intro t ht hnomatch
      simp only [viewOf] at hnomatch
      have hfind : (((rows.map fixRow).map (stagedView tsCast)).find?
          fun s => rowMatches (dedupeKeys dk) t s) = none := by
        rw [List.find?_eq_none]
        intro s hs
        simp [hnomatch s hs]
      apply List.mem_append_left
      refine List.mem_map.2 ⟨t, ht, ?_⟩
      rw [hfind]
    · intro t ht s hfind
      simp only [viewOf] at hfind
      apply List.mem_append_left
      refine List.mem_map.2 ⟨t, ht, ?_⟩
      rw [hfind]
    · intro s hs hnomatch
      simp only [viewOf] at hs
      have hany : (st.dest.any fun t => rowMatches (dedupeKeys dk) t s) = false := by
        rw [List.any_eq_false]
        intro t ht
        simp [hnomatch t ht]
      apply List.mem_append_right
      rw [List.mem_filter]
      refine ⟨hs, ?_⟩
      rw [hany]
      rfl
    · intro t s hmatch k hk
      have hkeys : dedupeKeys dk ≠ [] := by
        intro he
        rw [he] at hvk
        cases hvk
      have hall := (rowMatches_iff (dedupeKeys dk) hkeys t s).1 hmatch
      have hkeq := hall k hk
      cases k <;> simp only [getCol, applyUpdate] at hkeq ⊢ <;>
        first
          | rfl
          | exact hkeq.symm
    · intro t s k hk
      have hkv : k ≠ Col.video_id := fun he => hk (he ▸ hvk)
      cases k <;>
        first
          | exact absurd rfl hkv
          | rfl

/-- Claim **C7** witness: the loader applied to an empty batch and to a
single-row batch inserted into an empty destination. -/
theorem c7_witness :
    upsert_subtitles_raw (fun x => x) ⟨[], none⟩ [] "video_id,subtitle_lang" =
      some ⟨[], none⟩ ∧
    upsert_subtitles_raw (fun x => x) ⟨[], none⟩ [cexRow3] "video_id,subtitle_lang" =
      some ⟨[stagedView (fun x => x) (fixRow cexRow3)], none⟩ ∧
    stagedView (fun x => x) (fixRow cexRow3) ∈
      (⟨[stagedView (fun x => x) (fixRow cexRow3)], none⟩ : WState).dest := by
  have hup : upsert_subtitles_raw (fun x => x) ⟨[], none⟩ [cexRow3] "video_id,subtitle_lang" =
      some ⟨[stagedView (fun x => x) (fixRow cexRow3)], none⟩ := rfl
  have h0 := (c7_upsert_loader (fun x => x) (⟨[], none⟩ : WState) [cexRow3]
    "video_id,subtitle_lang").1
  have h := (c7_upsert_loader (fun x => x) (⟨[], none⟩ : WState) [cexRow3]
    "video_id,subtitle_lang").2.2 (by simp) (by decide)
    ⟨[stagedView (fun x => x) (fixRow cexRow3)], none⟩ hup
  refine ⟨h0, hup, ?_⟩
  exact h.2.2.2.1 (stagedView (fun x => x) (fixRow cexRow3)) (by simp [viewOf]) (by simp)

theorem applyUpdate_idem (t s : Row) : applyUpdate (applyUpdate t s) s = applyUpdate t s :=
  rfl

theorem applyUpdate_self (s : Row) : applyUpdate s s = s :=
  rfl

theorem rowMatches_euclid (keys : List Col) (hK : keys ≠ []) (t a b : Row)
    (hta : rowMatches keys t a = true) (htb : rowMatches keys t b = true) :
    rowMatches keys a b = true := by
  rw [rowMatches_iff keys hK] at hta htb ⊢
  intro k hk
  rw [← hta k hk, htb k hk]

theorem rowMatches_applyUpdate (keys : List Col) (hK : keys ≠ []) (t s : Row)
    (h : rowMatches keys t s = true) :
    rowMatches keys (applyUpdate t s) s = true := by
  rw [rowMatches_iff keys hK] at h ⊢
  intro k hk
  have hk2 := h k hk
  cases k <;> simp only [getCol, applyUpdate] at hk2 ⊢ <;> exact hk2

theorem rowMatches_refl (keys : List Col) (hK : keys ≠ []) (s : Row) :
    rowMatches keys s s = true := by
  rw [rowMatches_iff keys hK]
  intro k _
  rfl

theorem pairwise_match_eq (keys : List Col) (hK : keys ≠ []) :
    ∀ V : List Row, V.Pairwise (fun a b => rowMatches keys a b = false) →
      ∀ x ∈ V, ∀ y ∈ V, rowMatches keys x y = true → x = y := by
  intro V
  induction V with
  | nil => simp
  | cons a l ih =>
    intro hP x hx y hy hxy
    obtain ⟨ha, hl⟩ := List.pairwise_cons.1 hP
    rcases List.mem_cons.1 hx with hxa | hx' <;> rcases List.mem_cons.1 hy with hya | hy'
    · rw [hxa, hya]
    · refine absurd hxy ?_
      rw [hxa]
      simp [ha y hy']
    · have hsym : rowMatches keys a x = true := by
        rw [rowMatches_iff keys hK] at hxy ⊢
        intro k hk
        rw [hya] at hxy
        exact (hxy k hk).symm
      exact absurd hsym (by simp [ha x hx'])
    · exact ih hl x hx' y hy' hxy

theorem countP_matches_le_one (keys : List Col) (hK : keys ≠ []) (t : Row) :
    ∀ V : List Row, V.Pairwise (fun a b => rowMatches keys a b = false) →
      V.countP (fun s => rowMatches keys t s) ≤ 1 := by
  intro V
  induction V with
  | nil => intro _; simp
  | cons a l ih =>
    intro hP
    obtain ⟨ha, hl⟩ := List.pairwise_cons.1 hP
    by_cases hta : rowMatches keys t a = true
    · have hzero : l.countP (fun s => rowMatches keys t s) = 0 := by
        rw [List.countP_eq_zero]
        intro b hb htb
        have hab := rowMatches_euclid keys hK t a b hta htb
        simp [ha b hb] at hab
      rw [List.countP_cons, hzero]
      simp [hta]
    · rw [List.countP_cons]
      simp only [hta, if_false]
      simpa using ih hl

theorem find?_eq_some_of_unique {p : Row → Bool} :
    ∀ (V : List Row) (x : Row), x ∈ V → p x = true →
      (∀ y ∈ V, p y = true → y = x) → V.find? p = some x := by
  intro V
  induction V with
  | nil => intro x hx; simp at hx
  | cons a l ih =>
    intro x hx hpx huniq
    rcases List.mem_cons.1 hx with rfl | hx'
    · exact List.find?_cons_of_pos l hpx
    · by_cases hpa : p a = true
      · have hax : a = x := huniq a (List.mem_cons_self a l) hpa
        subst hax
        exact List.find?_cons_of_pos l hpa
      · rw [List.find?_cons_of_neg l (by simp [hpa])]
        exact ih x hx' hpx fun y hy hpy => huniq y (List.mem_cons_of_mem a hy) hpy

theorem mergeOp_eq_of_pairwise (keys : List Col) (hK : keys ≠ []) (D V : List Row)
    (hP : V.Pairwise (fun a b => rowMatches keys a b = false)) :
    mergeOp keys D V =
      some ((D.map fun t =>
          match V.find? (fun s => rowMatches keys t s) with
          | some s => applyUpdate t s
          | none => t) ++
        V.filter fun s => !D.any fun t => rowMatches keys t s) := by
  simp only [mergeOp]
  have hguard : (D.any fun t => decide (2 ≤ V.countP fun s => rowMatches keys t s)) =
      false := by
    rw [List.any_eq_false]
    intro t _
    have hle := countP_matches_le_one keys hK t V hP
    simp
    omega
  rw [hguard]
  rfl

theorem merge_idem (keys : List Col) (hK : keys ≠ []) (D V : List Row)
    (hP : V.Pairwise (fun a b => rowMatches keys a b = false)) :
    ∀ D', mergeOp keys D V = some D' → mergeOp keys D' V = some D' := by
  intro D' hD'
  rw [mergeOp_eq_of_pairwise keys hK D V hP] at hD'
  have hD'eq := Option.some.inj hD'
  subst hD'eq
  set DP := (D.map fun t =>
      match V.find? (fun s => rowMatches keys t s) with
      | some s => applyUpdate t s
      | none => t) ++
    V.filter (fun s => !D.any fun t => rowMatches keys t s) with hDP
  have huniq : ∀ t : Row, ∀ s ∈ V, rowMatches keys t s = true →
      V.find? (fun s2 => rowMatches keys t s2) = some s := by
    intro t s hs hts
    refine find?_eq_some_of_unique V s hs hts ?_
    intro y hy hpy
    exact pairwise_match_eq keys hK V hP y hy s hs
      (rowMatches_euclid keys hK t y s hpy hts)
  have hfix : ∀ t' ∈ DP, (match V.find? (fun s => rowMatches keys t' s) with
      | some s => applyUpdate t' s
      | none => t') = t' := by
    intro t' ht'
    rcases List.mem_append.1 ht' with hmem | hmem
    · obtain ⟨t, ht, hteq⟩ := List.mem_map.1 hmem
      cases hf : V.find? (fun s => rowMatches keys t s) with
      | none =>
        have ht't : t' = t := by rw [← hteq, hf]
        rw [ht't, hf]
      | some s =>
        have hps : rowMatches keys t s = true := List.find?_some hf
        have hsV : s ∈ V := List.mem_of_find?_eq_some hf
        have ht's : t' = applyUpdate t s := by rw [← hteq, hf]
        have hmatch2 : rowMatches keys t' s = true := by
          rw [ht's]
          exact rowMatches_applyUpdate keys hK t s hps
        rw [huniq t' s hsV hmatch2]
        show applyUpdate t' s = t'
        rw [ht's, applyUpdate_idem]
    · have hsV : t' ∈ V := List.mem_of_mem_filter hmem
      rw [huniq t' t' hsV (rowMatches_refl keys hK t')]
      show applyUpdate t' t' = t'
      rw [applyUpdate_self]
  have hall : ∀ s ∈ V, (DP.any fun t => rowMatches keys t s) = true := by
    intro s hs
    rw [List.any_eq_true]
    by_cases hmatched : ∃ t ∈ D, rowMatches keys t s = true
    · obtain ⟨t, ht, hts⟩ := hmatched
      refine ⟨applyUpdate t s, ?_, rowMatches_applyUpdate keys hK t s hts⟩
      rw [hDP]
      apply List.mem_append_left
      refine List.mem_map.2 ⟨t, ht, ?_⟩
      rw [huniq t s hs hts]
    · refine ⟨s, ?_, rowMatches_refl keys hK s⟩
      rw [hDP]
      apply List.mem_append_right
      rw [List.mem_filter]
      refine ⟨hs, ?_⟩
      have hanyf : (D.any fun t => rowMatches keys t s) = false := by
        rw [List.any_eq_false]
        intro t ht
        cases hbc : rowMatches keys t s
        · simp
        · exact absurd ⟨t, ht, hbc⟩ hmatched
      rw [hanyf]
      rfl
  have hins2 : V.filter (fun s => !DP.any fun t => rowMatches keys t s) = [] := by
    rw [List.filter_eq_nil_iff]
    intro s hs
    rw [hall s hs]
    simp
  rw [mergeOp_eq_of_pairwise keys hK DP V hP, hins2, List.append_nil]
  have hmapid : (DP.map fun t =>
      match V.find? (fun s => rowMatches keys t s) with
      | some s => applyUpdate t s
      | none => t) = DP := by
    have hcongr := List.map_congr_left hfix
    rw [hcongr]
    simp
  rw [hmapid]

/-- Claim **C8** (amended: requires a non-empty key-column list and a staged
batch whose rows have pairwise-distinct composite keys under the null-safe
comparison): merging the same batch twice yields the same destination row
set as merging it once — the first merge succeeds, the second merge
succeeds, and it changes nothing. -/
theorem c8_upsert_idempotent (tsCast : Option String → Option String)
    (st : WState) (rows : List Row) (dk : String)
    (hK : dedupeKeys dk ≠ [])
    (hP : (viewOf tsCast rows).Pairwise
      (fun a b => rowMatches (dedupeKeys dk) a b = false)) :
    ∃ st1 st2, upsert_subtitles_raw tsCast st rows dk = some st1 ∧
      upsert_subtitles_raw tsCast st1 rows dk = some st2 ∧
      st2.dest = st1.dest := by
  by_cases hrows : rows = []
  · refine ⟨st, st, ?_, ?_, rfl⟩
    · rw [hrows]
      rfl
    · rw [hrows]
      rfl
  · simp only [viewOf] at hP
    set V := (rows.map fixRow).map (stagedView tsCast) with hV
    set F := (st.dest.map fun t =>
        match V.find? (fun s => rowMatches (dedupeKeys dk) t s) with
        | some s => applyUpdate t s
        | none => t) ++
      V.filter (fun s => !st.dest.any fun t => rowMatches (dedupeKeys dk) t s) with hF
    have hm1 : mergeOp (dedupeKeys dk) st.dest V = some F :=
      mergeOp_eq_of_pairwise (dedupeKeys dk) hK st.dest V hP
    have hm2 : mergeOp (dedupeKeys dk) F V = some F :=
      merge_idem (dedupeKeys dk) hK st.dest V hP F hm1
    refine ⟨⟨F, none⟩, ⟨F, none⟩, ?_, ?_, rfl⟩
    · simp only [upsert_subtitles_raw]
      rw [if_neg hrows]
      rw [hm1]
    · simp only [upsert_subtitles_raw]
      rw [if_neg hrows]
      have hgoal : (match mergeOp (dedupeKeys dk) F V with
          | none => none
          | some d => some (⟨d, none⟩ : WState)) = some (⟨F, none⟩ : WState) := by
        rw [hm2]
      exact hgoal

/-- Claim **C8** counterexample: a batch of two rows sharing the composite key
`("v", "en")` inserted into an empty destination succeeds once (both rows
are inserted), but merging the same batch a second time fails with the
multiple-source-match merge error instead of reproducing the same row set,
refuting idempotence for arbitrary batches. -/
theorem c8_counterexample :
    upsert_subtitles_raw (fun x => x) ⟨[], none⟩ [cexRow1, cexRow2]
      "video_id,subtitle_lang" = some ⟨[cexRow1, cexRow2], none⟩ ∧
    upsert_subtitles_raw (fun x => x) ⟨[cexRow1, cexRow2], none⟩ [cexRow1, cexRow2]
      "video_id,subtitle_lang" = none := by
  constructor
  · rfl
  · rfl

/-- Claim **C8** witness: the amended idempotence applied to a concrete
distinct-key batch over an empty destination. -/
theorem c8_witness :
    ∃ st1 st2,
      upsert_subtitles_raw (fun x => x) ⟨[], none⟩ [cexRow1, cexRow3]
        "video_id,subtitle_lang" = some st1 ∧
      upsert_subtitles_raw (fun x => x) st1 [cexRow1, cexRow3]
        "video_id,subtitle_lang" = some st2 ∧
      st2.dest = st1.dest := by
  refine c8_upsert_idempotent (fun x => x) ⟨[], none⟩ [cexRow1, cexRow3]
    "video_id,subtitle_lang" (by decide) ?_
  simp only [viewOf]
  decide

/-! ### Query service (claim C9) -/

/-- Claim **C9**: per request at most two warehouse queries are issued; when the
retrieval query returns zero rows the response is the fixed no-results
summary with an empty citation list and no generation query is issued;
when it returns at least one row exactly one generation query is issued. -/
theorem c9_ask_query_budget (p : Payload) (b : AskBackend) :
    (ask p b).nRetrieval + (ask p b).nGeneration ≤ 2 ∧
    (pyStrip p.question ≠ "" → b.retrieve = .ok [] →
      (ask p b).resp = .ok ⟨noResultsMsg, []⟩ ∧ (ask p b).nGeneration = 0) ∧
    (pyStrip p.question ≠ "" → ∀ rows, b.retrieve = .ok rows → rows ≠ [] →
      (ask p b).nGeneration = 1) := by
  refine ⟨?_, ?_, ?_⟩
  · unfold ask
    by_cases hq : pyStrip p.question = ""
    · simp [hq]
    · rw [if_neg hq]
      split
      · simp
      · split
        · simp
        · split
          · simp
          · split <;> simp
  · intro hq2 hok
    unfold ask
    rw [if_neg hq2, hok]
    exact ⟨rfl, rfl⟩
  · intro hq2 rows hok hne
    unfold ask
    rw [if_neg hq2, hok]
    cases hg : b.generate (buildPrompt (pyStrip p.question)
        ("\n".intercalate (rows.map mkBullet))) with
    | error e => simp [hne, hg]
    | ok srows =>
      cases hh : srows.head? with
      | none => simp [hne, hg, hh]
      | some os => cases os <;> simp [hne, hg, hh]

/-- Claim **C9** witness: the budget applied to a request whose retrieval
returns zero rows. -/
theorem c9_witness :
    (ask w9Payload w9Backend).resp = .ok ⟨noResultsMsg, []⟩ ∧
    (ask w9Payload w9Backend).nGeneration = 0 ∧
    (ask w9Payload w9Backend).nRetrieval + (ask w9Payload w9Backend).nGeneration ≤ 2 := by
  have h := c9_ask_query_budget w9Payload w9Backend
  have h2 := h.2.1 (by decide) rfl
  exact ⟨h2.1, h2.2, h.1⟩

end SeoulYT
